import Mathlib

/-!
Verification development for the roadmap-generation module of the
learn-v1 repository (source file src/lib/db.ts, section "lib/ai.ts").

The TypeScript module is shallowly embedded:
* JSON values produced by JSON.parse are modelled by the inductive Json
  (JS numbers are modelled exactly as rationals; double rounding is not
  modelled, no claim depends on it).
* JS truthiness, property access, strict equality on parse results, the
  String.prototype.trim / toLowerCase / split / includes builtins, and the
  two regexes used by the module are modelled by small executable helpers.
* Thrown exceptions are modelled with Except; the per-node try/catch of
  generateRoadmap and the surrounding catch block are explicit matches.
* The axios call is a parameter of the orchestration function; its result
  (either an error carrying an optional HTTP status, or the raw content
  string of the first choice) abstracts the transport.
-/

/-- A JSON value, as returned by JSON.parse.  Duplicate object keys are kept
in source order; field lookup takes the last occurrence, as JSON.parse does. -/
inductive Json where
  | null
  | bool (b : Bool)
  | num (q : ℚ)
  | str (s : String)
  | arr (xs : List Json)
  | obj (fields : List (String × Json))
  deriving Inhabited

/-- Boolean equality on JSON values (structural).  Used only by executable
checkers in this file, not by the embedded code itself. -/
def Json.beq : Json → Json → Bool
  | .null, .null => true
  | .bool a, .bool b => a == b
  | .num a, .num b => a == b
  | .str a, .str b => a == b
  | .arr xs, .arr ys => arrBeq xs ys
  | .obj xs, .obj ys => objBeq xs ys
  | _, _ => false
where
  arrBeq : List Json → List Json → Bool
    | [], [] => true
    | x :: xs, y :: ys => Json.beq x y && arrBeq xs ys
    | _, _ => false
  objBeq : List (String × Json) → List (String × Json) → Bool
    | [], [] => true
    | (k1, v1) :: xs, (k2, v2) :: ys => k1 == k2 && Json.beq v1 v2 && objBeq xs ys
    | _, _ => false

/-- JS truthiness of a JSON value.  NaN cannot come out of JSON.parse, and
empty arrays / objects are truthy in JS. -/
def jsTruthy : Json → Bool
  | .null => false
  | .bool b => b
  | .num q => !(q == 0)
  | .str s => !(s == "")
  | .arr _ => true
  | .obj _ => true

/-- Last binding of a key in an object field list (JSON.parse keeps the last
duplicate key, so property reads see the last occurrence). -/
def lookupLast : List (String × Json) → String → Option Json
  | [], _ => none
  | (k1, v) :: rest, k =>
    match lookupLast rest k with
    | some r => some r
    | none => if k1 == k then some v else none

/-- JS property read `j.k` on a parse result: `none` models `undefined`
(non-objects have no own properties named id/title/...; reading on `null`
throws and is handled at the call sites). -/
def getField (j : Json) (k : String) : Option Json :=
  match j with
  | .obj fields => lookupLast fields k
  | _ => none

/-- JS `a || b` where `a` is a (possibly absent) property read: the read
value if truthy, otherwise the default. -/
def jsOr (x : Option Json) (d : Json) : Json :=
  match x with
  | some v => if jsTruthy v then v else d
  | none => d

/-- JS strict equality `===` between two values taken from one JSON.parse
result.  Primitives compare by value; arrays and objects compare by
reference, and two distinct nodes of a parse tree are never the same
reference, so composite values compare unequal here. -/
def jsStrictEq : Json → Json → Bool
  | .null, .null => true
  | .bool a, .bool b => a == b
  | .num a, .num b => a == b
  | .str a, .str b => a == b
  | _, _ => false

/-- ECMAScript WhiteSpace and LineTerminator code points: the set trimmed by
String.prototype.trim and matched by the regex class \s. -/
def wsCodes : List Nat :=
  [9, 10, 11, 12, 13, 32, 160, 0x1680, 0x2000, 0x2001, 0x2002, 0x2003, 0x2004,
   0x2005, 0x2006, 0x2007, 0x2008, 0x2009, 0x200A, 0x2028, 0x2029, 0x202F,
   0x205F, 0x3000, 0xFEFF]

def isJsWS (c : Char) : Bool := wsCodes.contains c.toNat

/-- String.prototype.trim on the character list. -/
def jsTrimL (l : List Char) : List Char :=
  ((l.dropWhile isJsWS).reverse.dropWhile isJsWS).reverse

def jsTrim (s : String) : String := String.mk (jsTrimL s.data)

/-- String.prototype.toLowerCase.  Char.toLower lowers exactly the ASCII
range A-Z, which is the JS behaviour on ASCII input; the Unicode special
casings of toLowerCase are not modelled (no claim involves them). -/
def jsToLower (s : String) : String := String.mk (s.data.map Char.toLower)

/-- UTF-16 width of one code point, for modelling the JS .length property. -/
def charW (c : Char) : Nat := if 0x10000 ≤ c.toNat then 2 else 1

/-- JS String.prototype.length: number of UTF-16 code units. -/
def utf16Len (s : String) : Nat := (s.data.map charW).sum

/-- The fixed blocklist of the prompt validator (source lines 68-84). -/
def invalidKeywords : List String :=
  ["weather", "score", "news", "today", "current", "calculate", "what is",
   "who is", "where is", "when is", "why is", "how to fix", "debug", "error",
   "problem"]

/-- `kw` occurs as a substring, JS String.prototype.includes.  For the ASCII
keywords of the blocklist, code-unit search and code-point search agree. -/
def jsIncludes (hay kw : String) : Bool := decide (kw.data <:+: hay.data)

/-- validatePrompt (source lines 87-107).  The source either returns true or
throws an Error; the thrown message is the Except payload. -/
def validatePrompt (prompt : String) : Except String Bool :=
  let lowerCasePrompt := jsTrim (jsToLower prompt)
  if utf16Len lowerCasePrompt < 3 then
    .error "Please enter a longer topic description."
  else if utf16Len lowerCasePrompt > 200 then
    .error "Please enter a shorter topic description."
  else
    match invalidKeywords.find? (fun keyword => jsIncludes lowerCasePrompt keyword) with
    | some _ =>
      .error "Please enter a topic you want to learn about, rather than a question or problem."
    | none => .ok true

/-- calculateNodePosition (source lines 362-399).  The double-precision
arithmetic of the source is modelled exactly over the rationals;
Math.floor(Math.log2(index+1)) is Nat.log2 (index+1).  For index < total the
divisor nodesInLevel+1 is positive, which is the domain every caller uses;
outside it the source would produce floating Infinity where rational
division by zero yields 0. -/
def calculateNodePosition (index total : Nat) : ℚ × ℚ :=
  let level : Nat := Nat.log2 (index + 1)
  let positionInLevel : ℤ := (index : ℤ) - (2 ^ level - 1)
  let nodesInLevel : ℤ := min ((2 : ℤ) ^ level) ((total : ℤ) - (2 ^ level - 1))
  let baseWidth : ℚ := 140 * 2 ^ level
  let xSpacing : ℚ := baseWidth / ((nodesInLevel : ℚ) + 1)
  let x0 : ℚ := ((positionInLevel : ℚ) + 1) * xSpacing - baseWidth / 2
  let x : ℚ :=
    if level > 0 then
      if (positionInLevel : ℚ) ≥ (nodesInLevel : ℚ) / 2 then
        x0 + 50 * (3 / 2) ^ level
      else
        x0 - 50 * (3 / 2) ^ level
    else x0
  let y : ℚ := (level : ℚ) * 100 + 50
  (x, y)

/-- The RoadmapNode record built by generateRoadmap.  The source is
TypeScript but the values are dynamic: a truthy raw id of any JSON type is
kept as-is, and description/children keep whatever elements the raw arrays
carried, so those fields are Json-valued here. -/
structure RoadmapNode where
  id : Json
  title : String
  description : List Json
  children : List Json
  sequence : ℚ
  timeNeeded : ℚ
  completed : Bool
  timeConsumed : ℚ
  position : ℚ × ℚ
  deriving Inhabited

/-- The regex test /^\d+\./ applied to a title (source line 257). -/
def hasNumDot (s : String) : Bool :=
  let ds := s.data.takeWhile Char.isDigit
  match ds, s.data.drop ds.length with
  | _ :: _, '.' :: _ => true
  | _, _ => false

/-- title.replace(/^\d+\.\s*/, ''): strip a leading digit run, the dot and
following whitespace when present, else leave the string unchanged.  The
regex class \s is the ECMAScript WhiteSpace/LineTerminator set. -/
def stripNumLabel (s : String) : String :=
  if hasNumDot s then
    String.mk (((s.data.dropWhile Char.isDigit).drop 1).dropWhile isJsWS)
  else s

/-- JS template stringification of the number held in `sequence` when the
source rewrites a title to `sequence + ". " + rest`.  It is exact on the
integral values every claim exercises; for a non-integral raw sequence the
source prints a decimal expansion which is abstracted by the Rat repr. -/
def jsNumToString (q : ℚ) : String :=
  if q.den == 1 then toString q.num else toString q

/-- The safe default node substituted by the per-node catch
(source lines 274-284). -/
def defaultNode (index total : Nat) : RoadmapNode :=
  { id := .str ("node_" ++ toString (index + 1))
  , title := toString (index + 1) ++ ". Topic " ++ toString (index + 1)
  , description := [.str "Content to be added"]
  , children := []
  , sequence := ((index + 1 : Nat) : ℚ)
  , timeNeeded := 1
  , completed := false
  , timeConsumed := 0
  , position := calculateNodePosition index total }

/-- One step of roadmap.some(n => n.id === childId) (source line 267).
Reading n.id throws a TypeError when the raw element n is null, which the
`.error` branch models; .some stops at the first true, so elements after a
match are not inspected.  A raw element without an id compares false
(undefined === childId is false, childId being a parse result). -/
def rawSomeId : List Json → Json → Except Unit Bool
  | [], _ => .ok false
  | n :: rest, childId =>
    match n with
    | .null => .error ()
    | _ =>
      match getField n "id" with
      | some v => if jsStrictEq v childId then .ok true else rawSomeId rest childId
      | none => rawSomeId rest childId

/-- children.filter(childId => roadmap.some(n => n.id === childId))
(source lines 266-268); a throw inside the predicate aborts the filter. -/
def filterChildren (roadmap : List Json) : List Json → Except Unit (List Json)
  | [] => .ok []
  | c :: cs => do
    let b ← rawSomeId roadmap c
    let rest ← filterChildren roadmap cs
    pure (if b then c :: rest else rest)

/-- The body of the per-node try block (source lines 242-270) for the raw
element at 0-based `index` of the raw list `roadmap`.  The two throw sites
are: reading a property of a null element, and calling .match / .replace on
a truthy non-string title. -/
def tryProcess (roadmap : List Json) (index : Nat) (node : Json) :
    Except Unit RoadmapNode :=
  match node with
  | .null => .error ()
  | _ =>
    let idVal := jsOr (getField node "id") (.str ("node_" ++ toString (index + 1)))
    let titleVal := jsOr (getField node "title")
      (.str (toString (index + 1) ++ ". Untitled Node"))
    let description : List Json :=
      match getField node "description" with
      | some (.arr xs) => xs
      | _ => []
    let children0 : List Json :=
      match getField node "children" with
      | some (.arr xs) => xs
      | _ => []
    let sequence : ℚ :=
      match getField node "sequence" with
      | some (.num q) => q
      | _ => ((index + 1 : Nat) : ℚ)
    let timeNeeded : ℚ :=
      match getField node "timeNeeded" with
      | some (.num q) => q
      | _ => 0
    match titleVal with
    | .str title0 =>
      let title1 :=
        if hasNumDot title0 then title0
        else jsNumToString sequence ++ ". " ++ stripNumLabel title0
      let description1 :=
        if description.length == 0 then [Json.str "No description available"]
        else description
      match filterChildren roadmap children0 with
      | .ok children1 =>
        .ok { id := idVal
            , title := title1
            , description := description1
            , children := children1
            , sequence := sequence
            , timeNeeded := timeNeeded
            , completed := false
            , timeConsumed := 0
            , position := calculateNodePosition index roadmap.length }
      | .error _ => .error ()
    | _ => .error ()

/-- roadmap.map((node, index) => try {...} catch { default }) for one
element: a failing element is replaced by the safe default (lines 271-285). -/
def processNode (roadmap : List Json) (index : Nat) (node : Json) : RoadmapNode :=
  match tryProcess roadmap index node with
  | .ok n => n
  | .error _ => defaultNode index roadmap.length

/-- The indexed map over the raw elements, index starting at k. -/
def processFrom (roadmap : List Json) : Nat → List Json → List RoadmapNode
  | _, [] => []
  | k, n :: ns => processNode roadmap k n :: processFrom roadmap (k + 1) ns

/-- Stable insertion of a node into a list sorted by sequence. -/
def insertBySeq (x : RoadmapNode) : List RoadmapNode → List RoadmapNode
  | [] => [x]
  | y :: ys => if x.sequence ≤ y.sequence then x :: y :: ys else y :: insertBySeq x ys

/-- processedNodes.sort((a, b) => a.sequence - b.sequence) (source line 289).
The ECMAScript sort contract (stable, ordered by the comparator) determines
the result uniquely for this consistent comparator; a stable insertion sort
realises it. -/
def sortBySeq : List RoadmapNode → List RoadmapNode
  | [] => []
  | x :: xs => insertBySeq x (sortBySeq xs)

/-- The final forEach (source lines 290-293): re-stamp sequence to the 1..N
positions and rewrite the title prefix, position index starting at k. -/
def restampFrom : Nat → List RoadmapNode → List RoadmapNode
  | _, [] => []
  | k, n :: ns =>
    { n with
      sequence := ((k + 1 : Nat) : ℚ)
      , title := toString (k + 1) ++ ". " ++ stripNumLabel n.title } ::
      restampFrom (k + 1) ns

/-- Steps 3-4 of Response Repair on the raw nodes array (source lines
241-295): per-element processing with per-element isolation, stable sort by
sequence, then re-stamping. -/
def processAll (nodes : List Json) : List RoadmapNode :=
  restampFrom 0 (sortBySeq (processFrom nodes 0 nodes))

/-- The two terminal failures Repair can propagate.  The source throws plain
Errors; the messages are "Failed to parse JSON response: " followed by the
underlying SyntaxError message (parseError), "Invalid response format:
missing nodes array" (missingNodes) and "Received empty nodes array from AI
service" (emptyNodes). -/
inductive GenError where
  | parseError
  | missingNodes
  | emptyNodes
  deriving DecidableEq

/-- Validation of the parsed value and processing of its nodes array
(source lines 229-295): !parsedResponse, a falsy or non-array nodes
property, and an empty nodes array are terminal; otherwise the node list is
produced. -/
def repairParsed (v : Json) : Except GenError (List RoadmapNode) :=
  if jsTruthy v then
    match getField v "nodes" with
    | none => .error .missingNodes
    | some nv =>
      if jsTruthy nv then
        match nv with
        | .arr nodes =>
          if nodes.length == 0 then .error .emptyNodes
          else .ok (processAll nodes)
        | _ => .error .missingNodes
      else .error .missingNodes
  else .error .missingNodes

/-- text.match(/\{[\s\S]*\}/) (source line 214): the greedy span from the
first opening brace to the last closing brace, when the latter comes after
the former; otherwise no match. -/
def extractBraces (s : String) : Option String :=
  let cs := s.data
  match cs.findIdx? (fun c => c == '{') with
  | none => none
  | some i =>
    match cs.reverse.findIdx? (fun c => c == '}') with
    | none => none
    | some rj =>
      let j := cs.length - 1 - rj
      if i < j then some (String.mk ((cs.drop i).take (j - i + 1))) else none

/-- Steps 1-2 of Response Repair (source lines 204-236), over an arbitrary
model `parse` of JSON.parse: parse the whole text, else parse the extracted
brace span, else the terminal parse error; then validate and process. -/
def repairText (parse : String → Option Json) (text : String) :
    Except GenError (List RoadmapNode) :=
  match parse text with
  | some v => repairParsed v
  | none =>
    match extractBraces text with
    | some extracted =>
      match parse extracted with
      | some v => repairParsed v
      | none => .error .parseError
    | none => .error .parseError

/-- JSON (ECMA-404) whitespace, as skipped by JSON.parse. -/
def jsonWs (c : Char) : Bool := c == ' ' || c == '\t' || c == '\n' || c == '\r'

def skipWs (cs : List Char) : List Char := cs.dropWhile jsonWs

def hexVal (c : Char) : Option Nat :=
  if '0' ≤ c ∧ c ≤ '9' then some (c.toNat - '0'.toNat)
  else if 'a' ≤ c ∧ c ≤ 'f' then some (c.toNat - 'a'.toNat + 10)
  else if 'A' ≤ c ∧ c ≤ 'F' then some (c.toNat - 'A'.toNat + 10)
  else none

def jsonUnescape (c : Char) : Option Char :=
  match c with
  | '"' => some '"'
  | '\\' => some '\\'
  | '/' => some '/'
  | 'b' => some (Char.ofNat 8)
  | 'f' => some (Char.ofNat 12)
  | 'n' => some '\n'
  | 'r' => some '\r'
  | 't' => some '\t'
  | _ => none

/-- Body of a JSON string after the opening quote.  Unescaped control
characters are rejected as JSON.parse does; \uXXXX escapes become the code
point (surrogate pairing of consecutive escapes is not recombined, a corner
no claim exercises). -/
def parseStrAux : List Char → List Char → Option (String × List Char)
  | acc, '"' :: rest => some (String.mk acc.reverse, rest)
  | acc, '\\' :: 'u' :: h1 :: h2 :: h3 :: h4 :: rest => do
    let d1 ← hexVal h1
    let d2 ← hexVal h2
    let d3 ← hexVal h3
    let d4 ← hexVal h4
    parseStrAux (Char.ofNat (((d1 * 16 + d2) * 16 + d3) * 16 + d4) :: acc) rest
  | acc, '\\' :: c :: rest =>
    match jsonUnescape c with
    | some e => parseStrAux (e :: acc) rest
    | none => none
  | acc, c :: rest => if c.toNat < 32 then none else parseStrAux (c :: acc) rest
  | _, [] => none

def digitsVal (ds : List Char) : Nat :=
  ds.foldl (fun a c => a * 10 + (c.toNat - '0'.toNat)) 0

/-- A JSON number starting at cs (no leading whitespace): -?(0|[1-9][0-9]*)
optionally followed by a fraction and an exponent, valued exactly in ℚ. -/
def parseNumber (cs : List Char) : Option (ℚ × List Char) := do
  let (neg, cs1) :=
    match cs with
    | '-' :: r => (true, r)
    | _ => (false, cs)
  let (intPart, cs2) ←
    match cs1 with
    | '0' :: r =>
      match r with
      | c :: _ => if c.isDigit then none else some ((0 : ℚ), r)
      | [] => some ((0 : ℚ), ([] : List Char))
    | c :: _ =>
      if c.isDigit then
        let ds := cs1.takeWhile Char.isDigit
        some ((digitsVal ds : ℚ), cs1.drop ds.length)
      else none
    | [] => none
  let (withFrac, cs3) ←
    match cs2 with
    | '.' :: r =>
      let ds := r.takeWhile Char.isDigit
      match ds with
      | [] => none
      | _ => some (intPart + (digitsVal ds : ℚ) / (10 : ℚ) ^ ds.length, r.drop ds.length)
    | _ => some (intPart, cs2)
  let (scaled, cs4) ←
    match cs3 with
    | e :: r =>
      if e == 'e' || e == 'E' then
        let (eneg, r1) :=
          match r with
          | '+' :: r2 => (false, r2)
          | '-' :: r2 => (true, r2)
          | _ => (false, r)
        let ds := r1.takeWhile Char.isDigit
        match ds with
        | [] => none
        | _ =>
          let ex := digitsVal ds
          let factor : ℚ := if eneg then 1 / (10 : ℚ) ^ ex else (10 : ℚ) ^ ex
          some (withFrac * factor, r1.drop ds.length)
      else some (withFrac, cs3)
    | [] => some (withFrac, cs3)
  some (if neg then -scaled else scaled, cs4)

mutual

/-- Recursive-descent JSON value parser with fuel (the nesting depth is
bounded by the input length, so jsonParse supplies length + 1). -/
def parseValue : Nat → List Char → Option (Json × List Char)
  | 0, _ => none
  | Nat.succ fuel, cs =>
    match skipWs cs with
    | 'n' :: 'u' :: 'l' :: 'l' :: rest => some (.null, rest)
    | 't' :: 'r' :: 'u' :: 'e' :: rest => some (.bool true, rest)
    | 'f' :: 'a' :: 'l' :: 's' :: 'e' :: rest => some (.bool false, rest)
    | '"' :: rest =>
      match parseStrAux [] rest with
      | some (s, r) => some (.str s, r)
      | none => none
    | '[' :: rest =>
      (match skipWs rest with
       | ']' :: r => some (.arr [], r)
       | cs1 =>
         match parseElems fuel cs1 with
         | some (xs, r) => some (.arr xs, r)
         | none => none)
    | '{' :: rest =>
      (match skipWs rest with
       | '}' :: r => some (.obj [], r)
       | cs1 =>
         match parseMembers fuel cs1 with
         | some (ms, r) => some (.obj ms, r)
         | none => none)
    | cs1 =>
      match parseNumber cs1 with
      | some (q, r) => some (.num q, r)
      | none => none

/-- One or more comma-separated array elements followed by ']'. -/
def parseElems : Nat → List Char → Option (List Json × List Char)
  | 0, _ => none
  | Nat.succ fuel, cs => do
    let (v, r) ← parseValue fuel cs
    match skipWs r with
    | ',' :: r2 => do
      let (vs, r3) ← parseElems fuel r2
      pure (v :: vs, r3)
    | ']' :: r2 => pure ([v], r2)
    | _ => none

/-- One or more comma-separated "key": value members followed by '}'. -/
def parseMembers : Nat → List Char → Option (List (String × Json) × List Char)
  | 0, _ => none
  | Nat.succ fuel, cs =>
    match skipWs cs with
    | '"' :: rest => do
      let (k, r) ← parseStrAux [] rest
      match skipWs r with
      | ':' :: r2 => do
        let (v, r3) ← parseValue fuel r2
        match skipWs r3 with
        | ',' :: r4 => do
          let (ms, r5) ← parseMembers fuel r4
          pure ((k, v) :: ms, r5)
        | '}' :: r4 => pure ([(k, v)], r4)
        | _ => none
      | _ => none
    | _ => none

end

/-- JSON.parse: a single JSON value covering the whole text up to
whitespace. -/
def jsonParse (s : String) : Option Json :=
  match parseValue (s.length + 1) s.data with
  | some (v, rest) =>
    match skipWs rest with
    | [] => some v
    | _ => none
  | none => none

/-- String.prototype.split with a single-character separator, as in
"node_7".split('_') = ["node", "7"]. -/
def splitChAux (sep : Char) (acc : List Char) : List Char → List (List Char)
  | [] => [acc.reverse]
  | c :: cs =>
    if c == sep then acc.reverse :: splitChAux sep [] cs
    else splitChAux sep (c :: acc) cs

def jsSplit (sep : Char) (s : String) : List String :=
  (splitChAux sep [] s.data).map String.mk

/-- JS string relational comparison a <= b: lexicographic over UTF-16 code
units (identical to code points on the digit strings compared here). -/
def strLeAux : List Char → List Char → Bool
  | [], _ => true
  | _ :: _, [] => false
  | a :: as, b :: bs =>
    if a.toNat < b.toNat then true
    else if b.toNat < a.toNat then false
    else strLeAux as bs

def jsStrLe (a b : String) : Bool := strLeAux a.data b.data

/-- The node-count ternary of createFallbackNodes (source line 337): any
level other than "beginner" and "intermediate" gets 15. -/
def nodeCountFor (level : String) : Nat :=
  if level == "beginner" then 8 else if level == "intermediate" then 12 else 15

/-- The children expression of createFallbackNodes (source line 349):
`i < nodeCount - 2 ? [node_(i+2), node_(i+3)].filter(n =>
n.split('_')[1] <= nodeCount.toString()) : []`.  The filter compares the
numeric suffix to nodeCount.toString() as JS STRINGS (lexicographically),
and `[1]` is an index into the split result (absent entries compare
false). -/
def fallbackChildren (i nodeCount : Nat) : List Json :=
  if i < nodeCount - 2 then
    ((["node_" ++ toString (i + 2), "node_" ++ toString (i + 3)].filter (fun n =>
      match (jsSplit '_' n).get? 1 with
      | some t => jsStrLe t (toString nodeCount)
      | none => false)).map Json.str)
  else []

/-- createFallbackNodes (source lines 336-360).  `rand i` models
Math.floor(Math.random() * 5) at loop iteration i, a value in [0, 4]. -/
def createFallbackNodes (rand : Nat → Nat) (prompt level : String) :
    List RoadmapNode :=
  let nodeCount := nodeCountFor level
  (List.range nodeCount).map (fun i =>
    { id := .str ("node_" ++ toString (i + 1))
    , title := toString (i + 1) ++ ". " ++ prompt ++ " Topic " ++ toString (i + 1)
    , description :=
        [ .str ("Learn the basics of " ++ prompt ++ " concept " ++ toString (i + 1))
        , .str "Key areas: Theory, Practice, Application"
        , .str ("Complete exercises related to " ++ prompt ++ " topic " ++ toString (i + 1))]
    , children := fallbackChildren i nodeCount
    , sequence := ((i + 1 : Nat) : ℚ)
    , timeNeeded := ((rand i : Nat) : ℚ) + 1
    , completed := false
    , timeConsumed := 0
    , position := calculateNodePosition i nodeCount })

/-- A JS exception reaching the outer catch of generateRoadmap: either a
plain Error (message only) or an axios failure carrying
error.response.status. -/
inductive JsErr where
  | plain (msg : String)
  | http (status : Nat) (msg : String)

def JsErr.message : JsErr → String
  | .plain m => m
  | .http _ m => m

def JsErr.status : JsErr → Option Nat
  | .plain _ => none
  | .http s _ => some s

/-- The user-facing message of a terminal Repair error, as thrown by the
source.  The parseError message carries a dynamic suffix (the underlying
SyntaxError message) which is abstracted away; no claim reads it. -/
def genErrMsg : GenError → String
  | .parseError => "Failed to parse JSON response: "
  | .missingNodes => "Invalid response format: missing nodes array"
  | .emptyNodes => "Received empty nodes array from AI service"

/-- The catch block of generateRoadmap (source lines 296-332): a 400 status
yields fallback nodes in development mode or a specific message otherwise;
401 and 429 map to their specific messages; anything else rethrows the
original message (or the generic one when that message is empty). -/
def handleCatch (isDev : Bool) (rand : Nat → Nat) (prompt level : String)
    (e : JsErr) : Except String (List RoadmapNode) :=
  let errorMessage := if e.message == "" then "Failed to generate roadmap" else e.message
  match e.status with
  | some 400 =>
    if isDev then .ok (createFallbackNodes rand prompt level)
    else .error "The AI service couldn\x27t process this request. Please try again with different parameters."
  | some 401 => .error "Authentication failed"
  | some 429 => .error "Too many requests. Please try again later."
  | _ => .error errorMessage

/-- generateRoadmap (source lines 109-333).  `parse` models JSON.parse,
`apiKey` the GROQ_API_KEY environment variable, `isDev` whether NODE_ENV is
development, and `svc` the awaited axios call: an exception, or the
response content `response.data.choices[0].message.content` (`none` when
that path is missing).  The Boolean of the result records whether the
external call was reached.  The request payload built from prompt, level
and roadmapType only flows to the external service and is absorbed into
`svc`. -/
def generateRoadmap (parse : String → Option Json) (apiKey : Option String)
    (isDev : Bool) (svc : Except JsErr (Option String)) (rand : Nat → Nat)
    (prompt level roadmapType : String) :
    Except String (List RoadmapNode) × Bool :=
  match validatePrompt prompt with
  | .error m => (handleCatch isDev rand prompt level (.plain m), false)
  | .ok _ =>
    match apiKey with
    | none =>
      (handleCatch isDev rand prompt level
        (.plain "GROQ_API_KEY is not configured in environment variables"), false)
    | some key =>
      if key == "" then
        (handleCatch isDev rand prompt level
          (.plain "GROQ_API_KEY is not configured in environment variables"), false)
      else
        match svc with
        | .error e => (handleCatch isDev rand prompt level e, true)
        | .ok none =>
          (handleCatch isDev rand prompt level
            (.plain "Invalid response from Groq API"), true)
        | .ok (some content) =>
          match repairText parse (jsTrim content) with
          | .ok nodes => (.ok nodes, true)
          | .error ge =>
            (handleCatch isDev rand prompt level (.plain (genErrMsg ge)), true)

/-! ### Claim C4: the layout function -/

/-- C4: the layout function is pure and deterministic (two calls with the
same (index, total) return the same pair), position (0, N) always has
y = TOP_MARGIN = 50, and for every index in [0, total) the coordinates
follow the claimed formulas: y = level * 100 + 50 with
level = floor(log2(index + 1)), and x = (positionInLevel + 1) *
baseWidth / (nodesInLevel + 1) - baseWidth / 2 with baseWidth =
140 * 2 ^ level, plus for level > 0 a bias of +50 * 1.5 ^ level on the
right half (positionInLevel >= nodesInLevel / 2) and -50 * 1.5 ^ level on
the left half. -/
theorem c4_layout_formula (index total : Nat) :
    calculateNodePosition index total = calculateNodePosition index total ∧
    (calculateNodePosition 0 total).2 = 50 ∧
    (index < total →
      (calculateNodePosition index total).2 =
        (Nat.log2 (index + 1) : ℚ) * 100 + 50 ∧
      (calculateNodePosition index total).1 =
        (let level : Nat := Nat.log2 (index + 1)
         let positionInLevel : ℚ := ((index : ℤ) - (2 ^ level - 1) : ℤ)
         let nodesInLevel : ℚ :=
           ((min ((2 : ℤ) ^ level) ((total : ℤ) - (2 ^ level - 1)) : ℤ))
         let baseWidth : ℚ := 140 * 2 ^ level
         let planar : ℚ :=
           (positionInLevel + 1) * (baseWidth / (nodesInLevel + 1)) - baseWidth / 2
         if 0 < level then
           if nodesInLevel / 2 ≤ positionInLevel then planar + 50 * (3 / 2) ^ level
           else planar - 50 * (3 / 2) ^ level
         else planar)) := by
  refine ⟨rfl, ?_, fun _ => ⟨rfl, rfl⟩⟩
  have h1 : Nat.log2 1 = 0 := by simp [Nat.log2]
  show (Nat.log2 (0 + 1) : ℚ) * 100 + 50 = 50
  rw [show (0 : Nat) + 1 = 1 from rfl, h1]
  norm_num

/-- Witness for C4 at (index, total) = (2, 7). -/
theorem c4_layout_formula_witness :
    (calculateNodePosition 2 7).2 = (Nat.log2 (2 + 1) : ℚ) * 100 + 50 :=
  ((c4_layout_formula 2 7).2.2 (by decide)).1

/-! ### Claim C5: the prompt validator -/

theorem wsCodes_not_contains_mid (m : Nat) (h1 : 65 ≤ m) (h2 : m ≤ 122) :
    wsCodes.contains m = false := by
  simp only [List.contains, List.elem_eq_mem, decide_eq_false_iff_not, wsCodes,
    List.mem_cons, List.not_mem_nil, or_false]
  omega

theorem charOfNat_toNat (n : Nat) (h : Nat.isValidChar n) :
    (Char.ofNat n).toNat = n := by
  simp only [Char.ofNat, dif_pos h, Char.ofNatAux, Char.toNat, UInt32.toNat,
    BitVec.toNat_ofNatLt]

theorem toLower_toNat_of_upper (c : Char) (h : 65 ≤ c.toNat ∧ c.toNat ≤ 90) :
    (Char.toLower c).toNat = c.toNat + 32 := by
  have hv : Nat.isValidChar (c.toNat + 32) := Or.inl (by omega)
  have h1 : (Char.ofNat (c.toNat + 32)).toNat = c.toNat + 32 := charOfNat_toNat _ hv
  simp only [Char.toLower]
  rw [if_pos ⟨h.1, h.2⟩]
  exact h1

theorem toLower_eq_of_not_upper (c : Char) (h : ¬(65 ≤ c.toNat ∧ c.toNat ≤ 90)) :
    Char.toLower c = c := by
  simp only [Char.toLower]
  rw [if_neg]
  intro hc
  exact h ⟨hc.1, hc.2⟩

/-- Lowercasing does not create or destroy JS whitespace. -/
theorem isJsWS_toLower (c : Char) : isJsWS (Char.toLower c) = isJsWS c := by
  by_cases h : 65 ≤ c.toNat ∧ c.toNat ≤ 90
  · have h2 := toLower_toNat_of_upper c h
    simp only [isJsWS, h2]
    rw [wsCodes_not_contains_mid (c.toNat + 32) (by omega) (by omega),
      wsCodes_not_contains_mid c.toNat (by omega) (by omega)]
  · rw [toLower_eq_of_not_upper c h]

/-- Lowercasing does not change the UTF-16 width of a character. -/
theorem charW_toLower (c : Char) : charW (Char.toLower c) = charW c := by
  by_cases h : 65 ≤ c.toNat ∧ c.toNat ≤ 90
  · have h2 := toLower_toNat_of_upper c h
    simp only [charW, h2]
    rw [if_neg (by omega), if_neg (by omega)]
  · rw [toLower_eq_of_not_upper c h]

/-- toLowerCase().trim() computes the same characters as lowercasing the
trimmed string. -/
theorem jsTrimL_map_toLower (l : List Char) :
    jsTrimL (l.map Char.toLower) = (jsTrimL l).map Char.toLower := by
  have hp : (isJsWS ∘ Char.toLower) = isJsWS := funext isJsWS_toLower
  simp only [jsTrimL, List.dropWhile_map, hp, ← List.map_reverse]

theorem utf16Len_mk_map_toLower (l : List Char) :
    utf16Len (String.mk (l.map Char.toLower)) = utf16Len (String.mk l) := by
  simp only [utf16Len, List.map_map]
  have hp : (charW ∘ Char.toLower) = charW := funext charW_toLower
  rw [hp]

/-- The characters of the lower-cased trimmed prompt. -/
theorem jsTrim_jsToLower_data (p : String) :
    (jsTrim (jsToLower p)).data = ((jsTrim p).data).map Char.toLower := by
  show jsTrimL (p.data.map Char.toLower) = (jsTrimL p.data).map Char.toLower
  exact jsTrimL_map_toLower p.data

theorem utf16Len_jsTrim_jsToLower (p : String) :
    utf16Len (jsTrim (jsToLower p)) = utf16Len (jsTrim p) := by
  show utf16Len (String.mk (jsTrimL (p.data.map Char.toLower))) =
    utf16Len (String.mk (jsTrimL p.data))
  rw [jsTrimL_map_toLower]
  exact utf16Len_mk_map_toLower _

/-- Every blocklist keyword is already lower-case. -/
theorem invalidKeywords_lower :
    ∀ kw ∈ invalidKeywords, kw.data.map Char.toLower = kw.data := by decide

/-- Either outcome of validatePrompt. -/
theorem validatePrompt_cases (p : String) :
    validatePrompt p = .ok true ∨ ∃ m, validatePrompt p = .error m := by
  simp only [validatePrompt]
  split
  · exact Or.inr ⟨_, rfl⟩
  · split
    · exact Or.inr ⟨_, rfl⟩
    · split
      · exact Or.inr ⟨_, rfl⟩
      · exact Or.inl rfl

/-- C5: the prompt validator succeeds exactly on well-formed prompts.  The
first part characterises success: validation returns ok iff the
lower-cased trimmed prompt has (JS) length in [3, 200] and contains no
blocklist keyword.  The second part is the failure direction stated on the
trimmed (not lower-cased) prompt: too short, too long, or containing a
blocklisted substring implies a validation error. -/
theorem c5_validate_prompt (p : String) :
    ((3 ≤ utf16Len (jsTrim (jsToLower p)) ∧ utf16Len (jsTrim (jsToLower p)) ≤ 200 ∧
      ∀ kw ∈ invalidKeywords, ¬ kw.data <:+: (jsTrim (jsToLower p)).data) ↔
      validatePrompt p = .ok true) ∧
    ((utf16Len (jsTrim p) < 3 ∨ 200 < utf16Len (jsTrim p) ∨
      ∃ kw ∈ invalidKeywords, kw.data <:+: (jsTrim p).data) →
      ∃ m, validatePrompt p = .error m) := by
  constructor
  · simp only [validatePrompt]
    split
    · rename_i hlt
      simp only [reduceCtorEq, iff_false, not_and]
      intro h3
      omega
    · split
      · rename_i hgt
        simp only [reduceCtorEq, iff_false, not_and]
        intro h3 h200
        omega
      · rename_i hlt hgt
        split
        · rename_i kw hfind
          simp only [reduceCtorEq, iff_false, not_and]
          intro _ _ hnone
          have hmem := List.mem_of_find?_eq_some hfind
          have hp := List.find?_some hfind
          simp only [jsIncludes, decide_eq_true_eq] at hp
          exact hnone kw hmem hp
        · rename_i hfind
          simp only [iff_true]
          refine ⟨by omega, by omega, ?_⟩
          intro kw hmem hinf
          have := List.find?_eq_none.mp hfind kw hmem
          simp only [jsIncludes, decide_eq_true_eq] at this
          exact this hinf
  · intro h
    rcases validatePrompt_cases p with hok | herr
    · exfalso
      have hiff := hok
      simp only [validatePrompt] at hiff
      rcases h with hlen | hlen | ⟨kw, hmem, hinf⟩
      · rw [utf16Len_jsTrim_jsToLower p] at hiff
        rw [if_pos hlen] at hiff
        exact absurd hiff (by simp)
      · rw [utf16Len_jsTrim_jsToLower p] at hiff
        rw [if_neg (by omega), if_pos hlen] at hiff
        exact absurd hiff (by simp)
      · have hinf2 : kw.data <:+: (jsTrim (jsToLower p)).data := by
          rw [jsTrim_jsToLower_data p]
          have := List.IsInfix.map Char.toLower hinf
          rwa [invalidKeywords_lower kw hmem] at this
        split at hiff
        · exact absurd hiff (by simp)
        · split at hiff
          · exact absurd hiff (by simp)
          · split at hiff
            · exact absurd hiff (by simp)
            · rename_i hfind
              have := List.find?_eq_none.mp hfind kw hmem
              simp only [jsIncludes, decide_eq_true_eq] at this
              exact this hinf2
    · exact herr

/-- Witness for C5 at the concrete prompts "Python" (accepted) and
"debug this" (rejected). -/
theorem c5_validate_prompt_witness :
    validatePrompt "Python" = .ok true ∧
    ∃ m, validatePrompt "debug this" = .error m :=
  ⟨(c5_validate_prompt "Python").1.mp ⟨by decide, by decide, by decide⟩,
   (c5_validate_prompt "debug this").2 (Or.inr (Or.inr ⟨"debug", by decide, by decide⟩))⟩

/-! ### Structural lemmas about the repair pipeline -/

theorem processFrom_length (r : List Json) (k : Nat) (l : List Json) :
    (processFrom r k l).length = l.length := by
  induction l generalizing k with
  | nil => rfl
  | cons n ns ih => simp [processFrom, ih]

theorem insertBySeq_length (x : RoadmapNode) (l : List RoadmapNode) :
    (insertBySeq x l).length = l.length + 1 := by
  induction l with
  | nil => rfl
  | cons y ys ih =>
    simp only [insertBySeq]
    split
    · simp
    · simp [ih]

theorem sortBySeq_length (l : List RoadmapNode) :
    (sortBySeq l).length = l.length := by
  induction l with
  | nil => rfl
  | cons x xs ih => simp [sortBySeq, insertBySeq_length, ih]

theorem restampFrom_length (k : Nat) (l : List RoadmapNode) :
    (restampFrom k l).length = l.length := by
  induction l generalizing k with
  | nil => rfl
  | cons n ns ih => simp [restampFrom, ih]

theorem processAll_length (nodes : List Json) :
    (processAll nodes).length = nodes.length := by
  simp [processAll, restampFrom_length, sortBySeq_length, processFrom_length]

theorem mem_insertBySeq {y : RoadmapNode} {x : RoadmapNode} {l : List RoadmapNode} :
    y ∈ insertBySeq x l ↔ y = x ∨ y ∈ l := by
  induction l with
  | nil => simp [insertBySeq]
  | cons z zs ih =>
    simp only [insertBySeq]
    split
    · simp [List.mem_cons]
    · simp only [List.mem_cons, ih]
      tauto

theorem mem_sortBySeq {y : RoadmapNode} {l : List RoadmapNode} :
    y ∈ sortBySeq l ↔ y ∈ l := by
  induction l with
  | nil => simp [sortBySeq]
  | cons x xs ih => simp [sortBySeq, mem_insertBySeq, ih]

theorem processFrom_mem {r : List Json} {k : Nat} {l : List Json}
    {x : RoadmapNode} (hx : x ∈ processFrom r k l) :
    ∃ j n, x = processNode r j n := by
  induction l generalizing k with
  | nil => simp [processFrom] at hx
  | cons n ns ih =>
    simp only [processFrom, List.mem_cons] at hx
    rcases hx with h | h
    · exact ⟨k, n, h⟩
    · exact ih h

theorem restampFrom_mem {k : Nat} {l : List RoadmapNode} {x : RoadmapNode}
    (hx : x ∈ restampFrom k l) :
    ∃ y ∈ l, x.description = y.description ∧ x.completed = y.completed ∧
      x.timeConsumed = y.timeConsumed ∧ x.children = y.children := by
  induction l generalizing k with
  | nil => simp [restampFrom] at hx
  | cons n ns ih =>
    simp only [restampFrom, List.mem_cons] at hx
    rcases hx with h | h
    · exact ⟨n, List.mem_cons_self n ns, by simp [h]⟩
    · obtain ⟨y, hy, hfields⟩ := ih h
      exact ⟨y, List.mem_cons_of_mem n hy, hfields⟩

theorem restampFrom_get (k : Nat) (l : List RoadmapNode) (i : Nat)
    (hi : i < (restampFrom k l).length) (hl : i < l.length) :
    (restampFrom k l).get ⟨i, hi⟩ =
      { l.get ⟨i, hl⟩ with
        sequence := ((k + i + 1 : Nat) : ℚ)
        , title := toString (k + i + 1) ++ ". " ++ stripNumLabel (l.get ⟨i, hl⟩).title } := by
  induction l generalizing k i with
  | nil => exact absurd hl (by simp)
  | cons n ns ih =>
    cases i with
    | zero => simp [restampFrom]
    | succ i =>
      have hi2 : i < (restampFrom (k + 1) ns).length := by
        simpa [restampFrom] using hi
      have hl2 : i < ns.length := by simpa using hl
      have := ih (k + 1) i hi2 hl2
      show (restampFrom k (n :: ns)).get ⟨i + 1, hi⟩ = _
      simp only [restampFrom, List.get_cons_succ]
      rw [this]
      have harith : k + 1 + i + 1 = k + (i + 1) + 1 := by omega
      simp [harith]

theorem restampFrom_map_seq (k : Nat) (l : List RoadmapNode) :
    (restampFrom k l).map (fun n => n.sequence) =
      (List.range' (k + 1) l.length).map (fun n => (n : ℚ)) := by
  induction l generalizing k with
  | nil => rfl
  | cons n ns ih =>
    simp only [restampFrom, List.map_cons, List.length_cons, List.range'_succ, ih]
    rfl

theorem filterChildren_sound {r : List Json} {cs out : List Json}
    (h : filterChildren r cs = .ok out) :
    ∀ c ∈ out, rawSomeId r c = .ok true := by
  induction cs generalizing out with
  | nil =>
    simp only [filterChildren] at h
    cases h
    intro c hc
    simp at hc
  | cons c cs ih =>
    simp only [filterChildren, bind, Except.bind] at h
    cases hb : rawSomeId r c with
    | error e => simp only [hb] at h; exact Except.noConfusion h
    | ok b =>
      simp only [hb] at h
      cases hrest : filterChildren r cs with
      | error e => simp only [hrest] at h; exact Except.noConfusion h
      | ok rest =>
        simp only [hrest, pure, Except.pure] at h
        cases b with
        | true =>
          rw [if_pos rfl] at h
          cases h
          intro x hx
          rcases List.mem_cons.mp hx with rfl | hx2
          · exact hb
          · exact ih hrest x hx2
        | false =>
          rw [if_neg (by simp)] at h
          cases h
          intro x hx
          exact ih hrest x hx

theorem rawSomeId_true_exists {r : List Json} {c : Json}
    (h : rawSomeId r c = .ok true) :
    ∃ m ∈ r, ∃ v, getField m "id" = some v ∧ jsStrictEq v c = true := by
  induction r with
  | nil => simp [rawSomeId] at h
  | cons n rest ih =>
    have tailcase :
        rawSomeId rest c = .ok true →
        ∃ m ∈ n :: rest, ∃ v, getField m "id" = some v ∧ jsStrictEq v c = true := by
      intro h2
      obtain ⟨m, hm, v, hv⟩ := ih h2
      exact ⟨m, List.mem_cons_of_mem _ hm, v, hv⟩
    cases n with
    | null => simp [rawSomeId] at h
    | bool b => exact tailcase (by simpa [rawSomeId, getField] using h)
    | num q => exact tailcase (by simpa [rawSomeId, getField] using h)
    | str s => exact tailcase (by simpa [rawSomeId, getField] using h)
    | arr xs => exact tailcase (by simpa [rawSomeId, getField] using h)
    | obj fields =>
      simp only [rawSomeId] at h
      cases hg : getField (.obj fields) "id" with
      | none =>
        simp only [hg] at h
        exact tailcase h
      | some v =>
        simp only [hg] at h
        by_cases he : jsStrictEq v c = true
        · exact ⟨.obj fields, List.mem_cons_self _ _, v, hg, he⟩
        · rw [if_neg he] at h
          exact tailcase h

/-- A node surviving the per-node try block has the forced flags, a
non-empty description, and children validated against the raw list. -/
theorem tryProcess_ok_inv {r : List Json} {i : Nat} {node : Json} {m : RoadmapNode}
    (h : tryProcess r i node = .ok m) :
    m.completed = false ∧ m.timeConsumed = 0 ∧ m.description ≠ [] ∧
      ∀ c ∈ m.children, rawSomeId r c = .ok true := by
  rcases node with _ | b | q | s | xs | fields
  case null => exact absurd h (by simp [tryProcess])
  all_goals
    simp only [tryProcess] at h
    split at h
    all_goals try exact Except.noConfusion h
    split at h
    all_goals try exact Except.noConfusion h
    rename_i children1 heq
    cases h
    refine ⟨rfl, rfl, ?_, ?_⟩
    · dsimp only
      split
      · simp
      · rename_i hlen
        intro hnil
        rw [hnil] at hlen
        simp at hlen
    · intro c hc
      dsimp only at hc
      exact filterChildren_sound heq c hc

/-- Every processed node (try path or default) has the forced flags, a
non-empty description, and only raw-validated children. -/
theorem processNode_inv (r : List Json) (i : Nat) (node : Json) :
    (processNode r i node).completed = false ∧
    (processNode r i node).timeConsumed = 0 ∧
    (processNode r i node).description ≠ [] ∧
    ∀ c ∈ (processNode r i node).children,
      ∃ m ∈ r, ∃ v, getField m "id" = some v ∧ jsStrictEq v c = true := by
  unfold processNode
  cases h : tryProcess r i node with
  | ok m =>
    obtain ⟨h1, h2, h3, h4⟩ := tryProcess_ok_inv h
    exact ⟨h1, h2, h3, fun c hc => rawSomeId_true_exists (h4 c hc)⟩
  | error e =>
    refine ⟨rfl, rfl, by simp [defaultNode], ?_⟩
    intro c hc
    simp [defaultNode] at hc

/-- Repair output characterised elementwise: fields preserved by the
re-stamping come from a processed node of the raw list. -/
theorem processAll_mem_inv {nodes : List Json} {x : RoadmapNode}
    (hx : x ∈ processAll nodes) :
    x.completed = false ∧ x.timeConsumed = 0 ∧ x.description ≠ [] ∧
    ∀ c ∈ x.children,
      ∃ m ∈ nodes, ∃ v, getField m "id" = some v ∧ jsStrictEq v c = true := by
  obtain ⟨y, hy, hdesc, hcomp, htc, hch⟩ := restampFrom_mem hx
  have hy2 : y ∈ processFrom nodes 0 nodes := mem_sortBySeq.mp hy
  obtain ⟨j, n, rfl⟩ := processFrom_mem hy2
  obtain ⟨h1, h2, h3, h4⟩ := processNode_inv nodes j n
  rw [hdesc, hcomp, htc, hch]
  exact ⟨h1, h2, h3, h4⟩

/-- Acceptance inversion for the parsed-value stage of Repair. -/
theorem repairParsed_ok_inv {v : Json} {l : List RoadmapNode}
    (h : repairParsed v = .ok l) :
    ∃ nodes : List Json, nodes ≠ [] ∧ getField v "nodes" = some (.arr nodes) ∧
      l = processAll nodes := by
  unfold repairParsed at h
  split at h
  · cases hg : getField v "nodes" with
    | none => rw [hg] at h; exact Except.noConfusion h
    | some nv =>
      rw [hg] at h
      simp only at h
      split at h
      · cases nv with
        | arr nodes =>
          simp only at h
          split at h
          · exact Except.noConfusion h
          · rename_i hlen
            cases h
            refine ⟨nodes, ?_, rfl, rfl⟩
            intro hnil
            rw [hnil] at hlen
            simp at hlen
        | null => exact Except.noConfusion h
        | bool b => exact Except.noConfusion h
        | num q => exact Except.noConfusion h
        | str s => exact Except.noConfusion h
        | obj fields => exact Except.noConfusion h
      · exact Except.noConfusion h
  · exact Except.noConfusion h

/-- Acceptance inversion for full Repair. -/
theorem repairText_ok_inv {parse : String → Option Json} {text : String}
    {l : List RoadmapNode} (h : repairText parse text = .ok l) :
    ∃ nodes : List Json, nodes ≠ [] ∧ l = processAll nodes := by
  unfold repairText at h
  split at h
  · obtain ⟨nodes, hne, _, hl⟩ := repairParsed_ok_inv h
    exact ⟨nodes, hne, hl⟩
  · split at h
    · split at h
      · obtain ⟨nodes, hne, _, hl⟩ := repairParsed_ok_inv h
        exact ⟨nodes, hne, hl⟩
      · exact Except.noConfusion h
    · exact Except.noConfusion h

/-! ### Claim C10: Repair preserves element count -/

/-- C10: for every parsed response whose nodes array is non-empty (length
N >= 1), Repair accepts it and returns exactly N nodes — failing elements
are replaced in place by defaults, never dropped, and none are added. -/
theorem c10_repair_preserves_count (v : Json) (nodes : List Json)
    (hT : jsTruthy v = true) (hg : getField v "nodes" = some (.arr nodes))
    (hne : nodes ≠ []) :
    ∃ l, repairParsed v = .ok l ∧ l.length = nodes.length := by
  have hlen : (nodes.length == 0) = false := by
    simp only [beq_eq_false_iff_ne, ne_eq, List.length_eq_zero]
    exact hne
  refine ⟨processAll nodes, ?_, processAll_length nodes⟩
  have hT2 : jsTruthy (Json.arr nodes) = true := rfl
  simp [repairParsed, hT, hg, hT2, hlen]

/-- Witness for C10 on the one-element response whose node is null. -/
theorem c10_repair_preserves_count_witness :
    ∃ l, repairParsed (Json.obj [("nodes", Json.arr [Json.null])]) = .ok l ∧
      l.length = [Json.null].length :=
  c10_repair_preserves_count _ [Json.null] rfl rfl (by simp)

/-! ### Claim C1: contiguous sequences and matching title prefixes -/

/-- C1: whenever Repair accepts a raw response and returns a list, the
sequence values are exactly 1..N in order (no gaps or duplicates), and the
node at position i carries sequence i+1 and a title beginning with that
number followed by ". " — regardless of duplicate or gapped raw sequence
values, because the list is sorted and then re-stamped. -/
theorem c1_repair_contiguous (parse : String → Option Json) (text : String)
    (l : List RoadmapNode) (h : repairText parse text = .ok l) :
    l.map (fun n => n.sequence) = (List.range' 1 l.length).map (fun n => (n : ℚ)) ∧
    ∀ i (hi : i < l.length),
      (l.get ⟨i, hi⟩).sequence = ((i + 1 : Nat) : ℚ) ∧
      ∃ rest, (l.get ⟨i, hi⟩).title = toString (i + 1) ++ ". " ++ rest := by
  obtain ⟨nodes, hne, rfl⟩ := repairText_ok_inv h
  constructor
  · show (restampFrom 0 (sortBySeq (processFrom nodes 0 nodes))).map (fun n => n.sequence) = _
    rw [show (processAll nodes).length =
        (sortBySeq (processFrom nodes 0 nodes)).length from restampFrom_length 0 _]
    exact restampFrom_map_seq 0 _
  · intro i hi
    have hi2 : i < (sortBySeq (processFrom nodes 0 nodes)).length := by
      simpa [processAll, restampFrom_length] using hi
    have hrec := restampFrom_get 0 (sortBySeq (processFrom nodes 0 nodes)) i hi hi2
    rw [show (0 : Nat) + i + 1 = i + 1 from by omega] at hrec
    exact ⟨congrArg RoadmapNode.sequence hrec,
      stripNumLabel ((sortBySeq (processFrom nodes 0 nodes)).get ⟨i, hi2⟩).title,
      congrArg RoadmapNode.title hrec⟩

/-- Witness for C1 on the parsable response with a single null node. -/
theorem c1_repair_contiguous_witness :
    (processAll [Json.null]).map (fun n => n.sequence) =
      (List.range' 1 (processAll [Json.null]).length).map (fun n => (n : ℚ)) :=
  (c1_repair_contiguous jsonParse "\x7b\"nodes\":[null]\x7d" (processAll [Json.null]) rfl).1

/-! ### Claim C8: forced defaults and the single-node example -/

/-- The non-positional fields of a node, used to state concrete outputs
without evaluating the layout arithmetic. -/
def nodeCore (n : RoadmapNode) :
    Json × String × List Json × List Json × ℚ × ℚ × Bool × ℚ :=
  (n.id, n.title, n.description, n.children, n.sequence, n.timeNeeded,
    n.completed, n.timeConsumed)

/-- C8: every node Repair returns has a non-empty description,
completed = false and timeConsumed = 0, whatever the raw element claimed;
and Repair on the raw text with the single element having only an id yields
exactly one node with id node_1, title "1. Untitled Node" (so sequence 1 and
a title starting "1."), the placeholder description, empty children,
sequence 1, timeNeeded 0 and the forced flags. -/
theorem c8_repair_forced_fields :
    (∀ (nodes : List Json) (i : Nat) (hi : i < (processAll nodes).length),
      ((processAll nodes).get ⟨i, hi⟩).description ≠ [] ∧
      ((processAll nodes).get ⟨i, hi⟩).completed = false ∧
      ((processAll nodes).get ⟨i, hi⟩).timeConsumed = 0) ∧
    (repairText jsonParse "\x7b\"nodes\":[\x7b\"id\":\"node_1\"\x7d]\x7d").map
        (fun l => l.map nodeCore) =
      Except.ok [(Json.str "node_1", "1. Untitled Node",
        [Json.str "No description available"], ([] : List Json),
        ((1 : Nat) : ℚ), (0 : ℚ), false, (0 : ℚ))] := by
  constructor
  · intro nodes i hi
    obtain ⟨h1, h2, h3, _⟩ := processAll_mem_inv (List.get_mem _ _ hi)
    exact ⟨h3, h1, h2⟩
  · rfl

/-- Witness for C8 on the one-element raw list containing null. -/
theorem c8_repair_forced_fields_witness :
    ((processAll [Json.null]).get ⟨0, by decide⟩).description ≠ [] ∧
    ((processAll [Json.null]).get ⟨0, by decide⟩).completed = false ∧
    ((processAll [Json.null]).get ⟨0, by decide⟩).timeConsumed = 0 :=
  c8_repair_forced_fields.1 [Json.null] 0 (by decide)

/-! ### Claim C2: children references -/

/-- Checker for the claim as stated: every child entry of the returned list
resolves (by JS strict equality) to the id of some node of the returned
list. -/
def resolvesInOutput (l : List RoadmapNode) : Bool :=
  l.all (fun n => n.children.all (fun c => l.any (fun m => jsStrictEq m.id c)))

/-- C2 counterexample: Repair accepts the raw text whose single element has
the falsy id "" and the child reference "", keeps the child (the filter
runs against the raw ids, and the raw id "" === ""), but re-identifies the
node as node_1 — so the returned child reference resolves to no id present
in the returned list. -/
theorem c2_counterexample :
    (repairText jsonParse "\x7b\"nodes\":[\x7b\"id\":\"\",\"children\":[\"\"]\x7d]\x7d").map
      resolvesInOutput = Except.ok false := rfl

/-- C2 (amended): every child entry of every node of the returned list is
strict-equal to the id property of some element of the RAW nodes array (the
filter runs against raw ids); entries matching no raw id are dropped.
Because failing or falsy-id elements are re-identified in the output, such
an entry need not resolve within the returned list itself. -/
theorem c2_children_match_raw (nodes : List Json) (i : Nat)
    (hi : i < (processAll nodes).length) (j : Nat)
    (hj : j < ((processAll nodes).get ⟨i, hi⟩).children.length) :
    ∃ m ∈ nodes, ∃ v, getField m "id" = some v ∧
      jsStrictEq v (((processAll nodes).get ⟨i, hi⟩).children.get ⟨j, hj⟩) = true := by
  obtain ⟨_, _, _, h4⟩ := processAll_mem_inv (List.get_mem _ _ hi)
  exact h4 _ (List.get_mem _ _ hj)

/-- Witness for the amended C2 on a one-element raw list with id "a"
referenced by its own children. -/
theorem c2_children_match_raw_witness :
    ∃ m ∈ [Json.obj [("id", Json.str "a"), ("children", Json.arr [Json.str "a"])]],
      ∃ v, getField m "id" = some v ∧
        jsStrictEq v
          (((processAll [Json.obj [("id", Json.str "a"),
              ("children", Json.arr [Json.str "a"])]]).get ⟨0, by decide⟩).children.get
            ⟨0, by decide⟩) = true :=
  c2_children_match_raw _ 0 (by decide) 0 (by decide)

/-! ### Claim C6: the terminal failures of Repair -/

/-- The parsed value Repair works on: the whole text if it parses, else the
parsed brace span if that parses, else nothing. -/
def effParse (parse : String → Option Json) (text : String) : Option Json :=
  match parse text with
  | some v => some v
  | none => (extractBraces text).bind parse

/-- The parsed value exposes a non-empty array under the nodes key (with
the truthiness checks the source performs on the way). -/
def hasNonemptyNodes (v : Json) : Bool :=
  jsTruthy v &&
    match getField v "nodes" with
    | some (.arr (_ :: _)) => true
    | _ => false

theorem repairParsed_eq_ok {v : Json} {nodes : List Json} (hT : jsTruthy v = true)
    (hg : getField v "nodes" = some (.arr nodes)) (hne : nodes ≠ []) :
    repairParsed v = .ok (processAll nodes) := by
  have hlen : (nodes.length == 0) = false := by
    simp only [beq_eq_false_iff_ne, ne_eq, List.length_eq_zero]
    exact hne
  have hT2 : jsTruthy (Json.arr nodes) = true := rfl
  simp [repairParsed, hT, hg, hT2, hlen]

theorem repairParsed_cases (v : Json) :
    (hasNonemptyNodes v = true →
      ∃ nodes : List Json, nodes ≠ [] ∧ repairParsed v = .ok (processAll nodes)) ∧
    (hasNonemptyNodes v = false →
      repairParsed v = .error .missingNodes ∨ repairParsed v = .error .emptyNodes) := by
  constructor
  · intro h
    simp only [hasNonemptyNodes, Bool.and_eq_true] at h
    obtain ⟨hT, hm⟩ := h
    cases hg : getField v "nodes" with
    | none => rw [hg] at hm; simp at hm
    | some nv =>
      rw [hg] at hm
      cases nv with
      | arr xs =>
        cases xs with
        | nil => simp at hm
        | cons c cs =>
          exact ⟨c :: cs, by simp, repairParsed_eq_ok hT hg (by simp)⟩
      | null => simp at hm
      | bool b => simp at hm
      | num q => simp at hm
      | str s => simp at hm
      | obj fields => simp at hm
  · intro h
    by_cases hT : jsTruthy v = true
    · simp only [hasNonemptyNodes, hT, Bool.true_and] at h
      cases hg : getField v "nodes" with
      | none => left; simp [repairParsed, hT, hg]
      | some nv =>
        rw [hg] at h
        cases nv with
        | arr xs =>
          cases xs with
          | nil =>
            right
            have hT2 : jsTruthy (Json.arr []) = true := rfl
            simp [repairParsed, hT, hg, hT2]
          | cons c cs => simp at h
        | null => left; simp [repairParsed, hT, hg, jsTruthy]
        | bool b => left; simp [repairParsed, hT, hg, jsTruthy]
        | num q => left; simp [repairParsed, hT, hg, jsTruthy]
        | str s => left; simp [repairParsed, hT, hg, jsTruthy]
        | obj fields => left; simp [repairParsed, hT, hg, jsTruthy]
    · left
      unfold repairParsed
      rw [if_neg hT]

theorem repairParsed_ne_parseError (v : Json) :
    repairParsed v ≠ .error .parseError := by
  intro h
  cases hne : hasNonemptyNodes v with
  | false =>
    rcases (repairParsed_cases v).2 hne with heq | heq <;> rw [heq] at h <;> simp at h
  | true =>
    obtain ⟨ns, _, heq⟩ := (repairParsed_cases v).1 hne
    rw [heq] at h
    exact Except.noConfusion h

theorem c6_aux {parse : String → Option Json} {text : String} {v0 : Json}
    (hrt : repairText parse text = repairParsed v0) :
    ((∃ e, repairText parse text = .error e ∧
        (e = .missingNodes ∨ e = .emptyNodes)) ↔ hasNonemptyNodes v0 = false) ∧
    (hasNonemptyNodes v0 = true →
      ∃ l, repairText parse text = .ok l ∧ l ≠ []) := by
  constructor
  · constructor
    · rintro ⟨e, he, hkind⟩
      cases hne : hasNonemptyNodes v0 with
      | false => rfl
      | true =>
        obtain ⟨ns, _, heq⟩ := (repairParsed_cases v0).1 hne
        rw [hrt, heq] at he
        exact Except.noConfusion he
    · intro hfalse
      rcases (repairParsed_cases v0).2 hfalse with heq | heq
      · exact ⟨.missingNodes, hrt.trans heq, Or.inl rfl⟩
      · exact ⟨.emptyNodes, hrt.trans heq, Or.inr rfl⟩
  · intro htrue
    obtain ⟨ns, hne, heq⟩ := (repairParsed_cases v0).1 htrue
    refine ⟨processAll ns, hrt.trans heq, ?_⟩
    intro hnil
    apply hne
    have hl := processAll_length ns
    rw [hnil] at hl
    exact List.length_eq_zero.mp hl.symm

/-- C6: Repair fails terminally in exactly two situations — a ParseError
iff neither the whole text nor the extracted brace span parses (so it never
silently returns an empty list), and a FormatError (missing-nodes or
empty-nodes) iff the parsed value lacks a non-empty array under the nodes
key; in every other case it returns a non-empty node list. -/
theorem c6_terminal_failures (parse : String → Option Json) (text : String) :
    (repairText parse text = .error .parseError ↔
      parse text = none ∧ (extractBraces text).bind parse = none) ∧
    (∀ v, effParse parse text = some v →
      ((∃ e, repairText parse text = .error e ∧
          (e = .missingNodes ∨ e = .emptyNodes)) ↔ hasNonemptyNodes v = false)) ∧
    (∀ v, effParse parse text = some v → hasNonemptyNodes v = true →
      ∃ l, repairText parse text = .ok l ∧ l ≠ []) := by
  cases hp : parse text with
  | some v0 =>
    have hrt : repairText parse text = repairParsed v0 := by
      simp [repairText, hp]
    have hef : effParse parse text = some v0 := by
      simp [effParse, hp]
    refine ⟨?_, ?_, ?_⟩
    · constructor
      · intro h
        rw [hrt] at h
        exact absurd h (repairParsed_ne_parseError v0)
      · rintro ⟨h1, -⟩
        exact Option.noConfusion h1
    · intro v hv
      rw [hef] at hv
      cases hv
      exact (c6_aux hrt).1
    · intro v hv
      rw [hef] at hv
      cases hv
      exact (c6_aux hrt).2
  | none =>
    cases hx : extractBraces text with
    | none =>
      have hrt : repairText parse text = .error .parseError := by
        simp [repairText, hp, hx]
      have hef : effParse parse text = none := by
        simp [effParse, hp, hx]
      refine ⟨⟨fun _ => ⟨rfl, by simp [hx]⟩, fun _ => hrt⟩, ?_, ?_⟩
      · intro v hv
        rw [hef] at hv
        exact Option.noConfusion hv
      · intro v hv
        rw [hef] at hv
        exact absurd hv (by simp)
    | some ex =>
      cases hpe : parse ex with
      | none =>
        have hrt : repairText parse text = .error .parseError := by
          simp [repairText, hp, hx, hpe]
        have hef : effParse parse text = none := by
          simp [effParse, hp, hx, hpe]
        refine ⟨⟨fun _ => ⟨rfl, by simp [hx, hpe]⟩, fun _ => hrt⟩, ?_, ?_⟩
        · intro v hv
          rw [hef] at hv
          exact Option.noConfusion hv
        · intro v hv
          rw [hef] at hv
          exact absurd hv (by simp)
      | some v0 =>
        have hrt : repairText parse text = repairParsed v0 := by
          simp [repairText, hp, hx, hpe]
        have hef : effParse parse text = some v0 := by
          simp [effParse, hp, hx, hpe]
        refine ⟨?_, ?_, ?_⟩
        · constructor
          · intro h
            rw [hrt] at h
            exact absurd h (repairParsed_ne_parseError v0)
          · rintro ⟨-, h2⟩
            simp [hpe] at h2
        · intro v hv
          rw [hef] at hv
          cases hv
          exact (c6_aux hrt).1
        · intro v hv
          rw [hef] at hv
          cases hv
          exact (c6_aux hrt).2

/-- Witness for C6: on the response text with one null node, conjunct three
produces an accepted non-empty list. -/
theorem c6_terminal_failures_witness :
    ∃ l, repairText jsonParse "\x7b\"nodes\":[null]\x7d" = .ok l ∧ l ≠ [] :=
  (c6_terminal_failures jsonParse "\x7b\"nodes\":[null]\x7d").2.2
    (Json.obj [("nodes", Json.arr [Json.null])]) rfl rfl

/-! ### Claim C3: the fallback generator -/

/-- The children the claim asserts: the next two nodes in order, clipped at
the array end.  (Stated from the claim, for comparison with the source.) -/
def claimedNextTwo (i total : Nat) : List Json :=
  (if i + 1 < total then [Json.str ("node_" ++ toString (i + 2))] else []) ++
  (if i + 2 < total then [Json.str ("node_" ++ toString (i + 3))] else [])

/-- Checker: every fallback node's children equal the claimed
next-two-clipped list. -/
def childrenAreNextTwo (l : List RoadmapNode) : Bool :=
  (List.range l.length).all (fun i =>
    match l.get? i with
    | some n => Json.beq.arrBeq n.children (claimedNextTwo i l.length)
    | none => true)

/-- C3 counterexample: at beginner level (8 nodes) the node at index 6 has
no children, while clipping the next-two pattern at the array end would
give it [node_8] — the guard i < nodeCount - 2 empties the children of the
last TWO nodes, so the claim fails as stated. -/
theorem c3_counterexample :
    childrenAreNextTwo (createFallbackNodes (fun _ => 0) "X" "beginner") = false := rfl

/-- C3 (amended): the fallback generator produces 8/12/15 nodes for
beginner/intermediate/any other level, timeNeeded always lies in [1, 5],
and the children of the node at index i are [node_(i+2), node_(i+3)]
filtered by a lexicographic JS string comparison of the part after "_"
against the decimal string of the node count when i < nodeCount - 2, and
empty otherwise (so the last two nodes have no children, and the string
comparison drops single-digit references when the node count is 10 or
more). -/
theorem c3_fallback_generator (rand : Nat → Nat) (prompt level : String)
    (hr : ∀ i, rand i ≤ 4) :
    (createFallbackNodes rand prompt level).length = nodeCountFor level ∧
    (level = "beginner" → nodeCountFor level = 8) ∧
    (level = "intermediate" → nodeCountFor level = 12) ∧
    (level = "advanced" → nodeCountFor level = 15) ∧
    (∀ n ∈ createFallbackNodes rand prompt level,
      1 ≤ n.timeNeeded ∧ n.timeNeeded ≤ 5) ∧
    (∀ i, i < nodeCountFor level →
      ((createFallbackNodes rand prompt level).get? i).map (fun n => n.children) =
        some
          (if i < nodeCountFor level - 2
            then
              ((["node_" ++ toString (i + 2), "node_" ++ toString (i + 3)].filter
                (fun s =>
                  match (jsSplit '_' s).get? 1 with
                  | some t => jsStrLe t (toString (nodeCountFor level))
                  | none => false)).map Json.str)
            else [])) := by
  refine ⟨by simp [createFallbackNodes], by intro h; subst h; rfl,
    by intro h; subst h; rfl, by intro h; subst h; rfl, ?_, ?_⟩
  · intro n hn
    simp only [createFallbackNodes, List.mem_map, List.mem_range] at hn
    obtain ⟨i, -, rfl⟩ := hn
    constructor
    · show (1 : ℚ) ≤ (rand i : ℚ) + 1
      have : (0 : ℚ) ≤ (rand i : ℚ) := Nat.cast_nonneg _
      linarith
    · show (rand i : ℚ) + 1 ≤ 5
      have h4 : (rand i : ℚ) ≤ 4 := by
        exact_mod_cast Nat.cast_le.mpr (hr i)
      linarith
  · intro i hi
    simp only [createFallbackNodes]
    rw [List.get?_eq_getElem?, List.getElem?_map, List.getElem?_range hi]
    rfl

/-- Witness for the amended C3 at a constant random source, prompt "X",
beginner level. -/
theorem c3_fallback_generator_witness :
    (createFallbackNodes (fun _ => 0) "X" "beginner").length = nodeCountFor "beginner" :=
  (c3_fallback_generator (fun _ => 0) "X" "beginner" (fun _ => Nat.zero_le 4)).1

/-! ### Claim C7: rejected prompts make no external call -/

theorem validatePrompt_error_ne_empty {p m : String}
    (hv : validatePrompt p = .error m) : (m == "") = false := by
  simp only [validatePrompt] at hv
  split at hv
  · cases hv
    rfl
  · split at hv
    · cases hv
      rfl
    · split at hv
      · cases hv
        rfl
      · exact Except.noConfusion hv

/-- C7: whenever the prompt validator rejects the prompt, generateRoadmap
fails immediately with precisely the validation error message and the
external service is never reached (the call flag is false and the outcome
does not depend on the service result). -/
theorem c7_invalid_prompt_no_call (parse : String → Option Json)
    (apiKey : Option String) (isDev : Bool) (svc : Except JsErr (Option String))
    (rand : Nat → Nat) (prompt level roadmapType m : String)
    (hv : validatePrompt prompt = .error m) :
    generateRoadmap parse apiKey isDev svc rand prompt level roadmapType =
      (.error m, false) := by
  have hm := validatePrompt_error_ne_empty hv
  simp [generateRoadmap, hv, handleCatch, JsErr.status, JsErr.message, hm]

/-- Witness for C7 on the too-short prompt "hi". -/
theorem c7_invalid_prompt_no_call_witness :
    generateRoadmap jsonParse (some "k") false (.ok none) (fun _ => 0)
      "hi" "beginner" "week-by-week" =
      (.error "Please enter a longer topic description.", false) :=
  c7_invalid_prompt_no_call jsonParse (some "k") false (.ok none) (fun _ => 0)
    "hi" "beginner" "week-by-week" _ rfl

/-! ### Claim C9: HTTP status mapping -/

/-- C9: a 429 response makes generateRoadmap fail with the rate-limit
message (which is not the generic fallback message), and a 401 response
with the authentication-failure message; in both cases the external call
was made. -/
theorem c9_http_status_messages (parse : String → Option Json) (k : String)
    (hk : (k == "") = false) (isDev : Bool) (rand : Nat → Nat)
    (prompt level roadmapType msg : String)
    (hv : validatePrompt prompt = .ok true) :
    generateRoadmap parse (some k) isDev (.error (.http 429 msg)) rand
        prompt level roadmapType =
      (.error "Too many requests. Please try again later.", true) ∧
    "Too many requests. Please try again later." ≠ "Failed to generate roadmap" ∧
    generateRoadmap parse (some k) isDev (.error (.http 401 msg)) rand
        prompt level roadmapType =
      (.error "Authentication failed", true) := by
  refine ⟨?_, by decide, ?_⟩ <;>
    simp [generateRoadmap, hv, hk, handleCatch, JsErr.status, JsErr.message]

/-- Witness for C9 at prompt "Python" and key "key". -/
theorem c9_http_status_messages_witness :
    generateRoadmap jsonParse "key" false (.error (.http 429 "boom")) (fun _ => 0)
      "Python" "beginner" "week-by-week" =
      (.error "Too many requests. Please try again later.", true) :=
  (c9_http_status_messages jsonParse "key" rfl false (fun _ => 0)
    "Python" "beginner" "week-by-week" "boom" rfl).1
